import Mathlib

/-!
Verification of the record-join / tie-break selection engine and the
positional extraction utilities of the Proyecto_Gen_Evo pipeline
(`Scripts/05_summary/01_make_summary.py` and
`Scripts/extract_by_positions_v2.py`), as a shallow embedding in Lean.

Strings are modelled as `List Char` (`Str`), Python floats as `ℚ`,
Python ints as `ℤ`.  Fallible code (uncaught exceptions) is modelled
with `Except Unit`; per-line recoverable skips with `Option`.
-/

set_option maxRecDepth 4000

abbrev Str := List Char

/-- Model of Python's default whitespace set used by `str.strip()` /
`str.split()` with no argument. -/
def pyIsSpace (c : Char) : Bool :=
  c == ' ' || c == '\t' || c == '\n' || c == '\r' || c == '\x0b' || c == '\x0c'

/-- Model of Python `str.strip()` (no argument): drop leading and trailing
whitespace. -/
def pyStrip (l : Str) : Str :=
  ((l.dropWhile pyIsSpace).reverse.dropWhile pyIsSpace).reverse

/-- Model of Python `str.rstrip("\n")`. -/
def pyRStripNl (l : Str) : Str :=
  (l.reverse.dropWhile (fun c => c == '\n')).reverse

/-- Helper of `splitWs`: `acc` holds the (reversed) token currently being
accumulated. -/
def splitWsAux : Str → Str → List Str
  | [], acc => if acc.isEmpty then [] else [acc.reverse]
  | c :: t, acc =>
    if pyIsSpace c then
      if acc.isEmpty then splitWsAux t [] else acc.reverse :: splitWsAux t []
    else splitWsAux t (c :: acc)

/-- Model of Python `str.split()` with no argument: split on runs of
whitespace, producing no empty tokens. -/
def splitWs (l : Str) : List Str := splitWsAux l []

/-- Model of Python `str.split(sep)` for a single separator character and no
maxsplit: always returns at least one (possibly empty) field. -/
def splitOnChar (sep : Char) : Str → List Str
  | [] => [[]]
  | c :: t =>
    if c == sep then [] :: splitOnChar sep t
    else
      match splitOnChar sep t with
      | [] => [[c]]
      | f :: fs => (c :: f) :: fs

/-- Model of Python `str.split(sep, 1)`: split at the first occurrence of
`sep` only. -/
def splitOnce (sep : Char) (l : Str) : List Str :=
  if l.contains sep then
    [l.takeWhile (fun c => c != sep), (l.dropWhile (fun c => c != sep)).drop 1]
  else [l]

/-- Numeric value of a digit string (total helper; only meaningful when every
character is a decimal digit). -/
def digitsToNat (l : Str) : Nat :=
  l.foldl (fun a c => a * 10 + (c.toNat - 48)) 0

/-- Model of Python `int(s)` on decimal string literals: optional surrounding
whitespace, optional sign, then one or more digits; anything else raises
`ValueError`, modelled as `none`. -/
def pyInt (l : Str) : Option Int :=
  let s := pyStrip l
  match s with
  | '-' :: t =>
    if t.isEmpty || !(t.all Char.isDigit) then none
    else some (-(digitsToNat t : Int))
  | '+' :: t =>
    if t.isEmpty || !(t.all Char.isDigit) then none
    else some (digitsToNat t : Int)
  | t =>
    if t.isEmpty || !(t.all Char.isDigit) then none
    else some (digitsToNat t : Int)

/-- Rational value of a parsed decimal float literal: sign, integer digits,
fraction digits, exponent sign and exponent digits. -/
def ratOfParts (sgn : Int) (ip fp : Str) (esgn : Int) (ed : Str) : ℚ :=
  let m : Int := sgn * (digitsToNat (ip ++ fp) : Int)
  let e : Int := esgn * (digitsToNat ed : Int) - (fp.length : Int)
  if 0 ≤ e then (m : ℚ) * (10 : ℚ) ^ e.toNat
  else (m : ℚ) / (10 : ℚ) ^ (-e).toNat

/-- Model of Python `float(s)` on finite decimal literals: optional
surrounding whitespace, optional sign, digits with optional fractional part,
optional `e`/`E` exponent.  (Special values such as `inf`/`nan` are outside
the model's domain.)  Failure (`ValueError`) is `none`. -/
def pyFloat (l : Str) : Option ℚ :=
  let s := pyStrip l
  let (sgn, s1) : Int × Str :=
    match s with
    | '-' :: t => (-1, t)
    | '+' :: t => (1, t)
    | t => (1, t)
  let ip := s1.takeWhile Char.isDigit
  let r1 := s1.dropWhile Char.isDigit
  let (fp, r2) : Str × Str :=
    match r1 with
    | '.' :: t => (t.takeWhile Char.isDigit, t.dropWhile Char.isDigit)
    | t => ([], t)
  if ip.isEmpty && fp.isEmpty then none
  else
    match r2 with
    | [] => some (ratOfParts sgn ip fp 1 [])
    | c :: t =>
      if c == 'e' || c == 'E' then
        let (esgn, ed) : Int × Str :=
          match t with
          | '-' :: u => (-1, u)
          | '+' :: u => (1, u)
          | u => (1, u)
        if ed.isEmpty || !(ed.all Char.isDigit) then none
        else some (ratOfParts sgn ip fp esgn ed)
      else none

/-! ## Subsequence Extractor (`extract_by_positions_v2.py`, `extract_segments`) -/

/-- A position range: `some (a, b)` is a concrete 1-based inclusive pair,
`none` is the no-cut sentinel (Python `None`). -/
abbrev PRange := Option (Int × Int)

/-- One iteration of the `for a, b in ranges` loop of `extract_segments`:
append the clamped window for `r` to the accumulated pieces (the `none` case
is unreachable there because the sentinel check has already returned). -/
def extractStep (seq : Str) (tailMode : Bool) (pieces : List Str) (r : PRange) : List Str :=
  match r with
  | none => pieces
  | some (a, b) =>
    let L : Int := seq.length
    let s : Int := if tailMode then max 1 b else max 1 a
    let e : Int := if tailMode then L else min L b
    if s > e then pieces
    else pieces ++ [(seq.drop (s - 1).toNat).take (e - (s - 1)).toNat]

/-- Model of `extract_segments(seq, ranges, tail_mode)`. -/
def extract_segments (seq : Str) (ranges : List PRange) (tailMode : Bool) : Str :=
  if ranges.isEmpty then []
  else if ranges.any (fun r => r.isNone) then seq
  else (ranges.foldl (extractStep seq tailMode) []).flatten

/-- The window a single concrete range contributes, stated as in the spec:
`[max(1,B), L]` in tail mode, `[max(1,A), min(L,B)]` in normal mode, 1-based
inclusive, empty when the clamped start exceeds the clamped end. -/
def specWindow (seq : Str) (tailMode : Bool) (p : Int × Int) : Str :=
  let L : Int := seq.length
  let s : Int := if tailMode then max 1 p.2 else max 1 p.1
  let e : Int := if tailMode then L else min L p.2
  if s ≤ e then (seq.drop (s - 1).toNat).take (e - (s - 1)).toNat else []

/-! ## Position-Range Resolver (`extract_by_positions_v2.py`) -/

/-- Model of `parse_range(r)`: split at the first hyphen (`r.split('-', 1)`);
anything but exactly two integer parts raises (`.error`). -/
def parse_range (r : Str) : Except Unit (Int × Int) :=
  match splitOnce '-' r with
  | [p0, p1] =>
    match pyInt p0, pyInt p1 with
    | some a, some b => .ok (a, b)
    | _, _ => .error ()
  | _ => .error ()

/-- Body of the `for piece in pos_arg.split(',')` loop of
`parse_positions_arg`: empty pieces are skipped, a bare `-` piece appends the
no-cut sentinel, any other piece goes through `parse_range` (a failure there
is the uncaught fatal `ValueError`). -/
def parseStep (acc : List PRange) (piece : Str) : Except Unit (List PRange) :=
  let p := pyStrip piece
  if p.isEmpty then .ok acc
  else if p == ['-'] then .ok (acc ++ [(none : PRange)])
  else (parse_range p).map (fun ab => acc ++ [some ab])

/-- Model of `parse_positions_arg(pos_arg)`: strip, empty gives `[]`, else
comma-split and run the piece loop. -/
def parse_positions_arg (s : Str) : Except Unit (List PRange) :=
  let s1 := pyStrip s
  if s1.isEmpty then .ok []
  else (splitOnChar ',' s1).foldlM parseStep []

/-- Spec-side (claim C6): a piece is `exactly two integers separated by one
hyphen` when it can be split at some hyphen occurrence into two halves that
both read as integers. -/
def specPieceWellFormed (p : Str) : Bool :=
  (List.range p.length).any (fun i =>
    p.getD i ' ' == '-' && (pyInt (p.take i)).isSome && (pyInt (p.drop (i + 1))).isSome)

/-- The value a single piece contributes to a successfully decoded spec
string: nothing for an all-whitespace piece, the sentinel for `-`, the parsed
pair otherwise. -/
def pieceValue (piece : Str) : Option PRange :=
  let q := pyStrip piece
  if q.isEmpty then none
  else if q == ['-'] then some none
  else
    match parse_range q with
    | .ok ab => some (some ab)
    | .error _ => none

/-- The tagged classification a positions file resolves to: per-identifier
dict, global single rule, or ordered-by-record list. -/
inductive PosData where
  | perId (d : Str → Option (List PRange))
  | glob (g : List PRange)
  | ordered (o : List (List PRange))

/-- The non-blank, non-comment content lines of a positions file (each raw
line stripped; empty and `#`-starting lines skipped). -/
def contentLines (lines : List Str) : List Str :=
  (lines.map pyStrip).filter (fun l => !(l.isEmpty || l.head? == some '#'))

/-- One iteration of the per-identifier loop of `read_positions_file`:
colonless lines are skipped, `sid:` with empty rest is skipped, `sid:-` maps
`sid` to the single sentinel, otherwise the rest is decoded (failure is
fatal). -/
def perIdStep (d : Str → Option (List PRange)) (ln : Str) :
    Except Unit (Str → Option (List PRange)) :=
  if ln.contains ':' then
    let sid := pyStrip (ln.takeWhile (fun c => c != ':'))
    let rest := pyStrip ((ln.dropWhile (fun c => c != ':')).drop 1)
    if rest.isEmpty then .ok d
    else if rest == ['-'] then .ok (fun k => if k = sid then some [none] else d k)
    else (parse_positions_arg rest).map
      (fun rs => fun k => if k = sid then some rs else d k)
  else .ok d

/-- Decoding of one line in ordered mode: a bare `-` line becomes `[None]`,
anything else goes through `parse_positions_arg`. -/
def orderedLine (ln : Str) : Except Unit (List PRange) :=
  if ln == ['-'] then .ok [(none : PRange)] else parse_positions_arg ln

/-- Model of `read_positions_file(path)` on the file's raw lines. -/
def read_positions_file (lines : List Str) : Except Unit PosData :=
  let ls := contentLines lines
  if ls.any (fun ln => ln.contains ':') then
    (ls.foldlM perIdStep (fun _ => none)).map .perId
  else
    match ls with
    | [] => .ok (.glob [])
    | [ln] => (parse_positions_arg ln).map .glob
    | _ => (ls.mapM orderedLine).map .ordered

/-- `header.split()[0]` of the record-processing loop in `main`: `none` is
the uncaught `IndexError` on a header with no tokens. -/
def seqId (header : Str) : Option Str := (splitWs header).head?

/-- The range list `main` assigns to the record with 0-based index `idx` and
identifier `sid`, per addressing mode. -/
def recordRanges (pd : PosData) (idx : Nat) (sid : Str) : List PRange :=
  match pd with
  | .perId d => (d sid).getD []
  | .glob g => g
  | .ordered o => if idx < o.length then o.getD idx [] else []

/-- Processing of one FASTA record in `main`'s loop: `.error` models the
uncaught exception on a token-less header; `.ok none` a skipped record (no
ranges, or empty extracted subsequence); `.ok (some (header, sub))` a written
record. -/
def processRecord (pd : PosData) (tailMode : Bool) (idx : Nat) (rec : Str × Str) :
    Except Unit (Option (Str × Str)) :=
  match seqId rec.1 with
  | none => .error ()
  | some sid =>
    let ranges := recordRanges pd idx sid
    if ranges.isEmpty then .ok none
    else
      let sub := extract_segments rec.2 ranges tailMode
      if sub.isEmpty then .ok none else .ok (some (rec.1, sub))

/-- The whole record loop of `main`: every record processed in order, written
records collected in order. -/
def processRecords (pd : PosData) (tailMode : Bool) (records : List (Str × Str)) :
    Except Unit (List (Str × Str)) :=
  (records.enum.mapM (fun p => processRecord pd tailMode p.1 p.2)).map
    (fun l => l.filterMap id)

/-! ## Domain-Table Parser and Best-Hit Selector (`01_make_summary.py`) -/

/-- Model of `str.replace("E", "e")`. -/
def pyReplaceEe (l : Str) : Str := l.map (fun c => if c == 'E' then 'e' else c)

/-- One row of HMMER domain-table output (`DomHit` dataclass); floats are
modelled as `ℚ`, ints as `ℤ`, strings as `Str`. -/
structure DomHit where
  target_name : Str
  target_acc : Str
  query_name : Str
  query_acc : Str
  full_evalue : ℚ
  full_score : ℚ
  full_bias : ℚ
  dom_ievalue : ℚ
  dom_score : ℚ
  dom_bias : ℚ
  hmm_from : Int
  hmm_to : Int
  ali_from : Int
  ali_to : Int
  env_from : Int
  env_to : Int
  acc : ℚ
  desc : Str
deriving DecidableEq

/-- Decoding of the whitespace-split fields of one domain-table line: lines
with fewer than 22 fields are skipped, as is any line with a
numeric-conversion failure; otherwise the `DomHit` is decoded column by
column. -/
def parseDomParts (parts : List Str) : Option DomHit :=
  if parts.length < 22 then none
  else
      match pyFloat (pyReplaceEe (parts.getD 6 [])), pyFloat (parts.getD 7 []),
        pyFloat (parts.getD 8 []), pyFloat (pyReplaceEe (parts.getD 12 [])),
        pyFloat (parts.getD 13 []), pyFloat (parts.getD 14 []),
        pyInt (parts.getD 15 []), pyInt (parts.getD 16 []),
        pyInt (parts.getD 17 []), pyInt (parts.getD 18 []),
        pyInt (parts.getD 19 []), pyInt (parts.getD 20 []),
        pyFloat (parts.getD 21 []) with
      | some fe, some fs, some fb, some die, some ds, some db,
        some hf, some ht, some af, some ato, some ef, some et, some pacc =>
        some { target_name := parts.getD 0 [], target_acc := parts.getD 1 [],
               query_name := parts.getD 3 [], query_acc := parts.getD 4 [],
               full_evalue := fe, full_score := fs, full_bias := fb,
               dom_ievalue := die, dom_score := ds, dom_bias := db,
               hmm_from := hf, hmm_to := ht, ali_from := af, ali_to := ato,
               env_from := ef, env_to := et, acc := pacc,
               desc := List.intercalate [' '] (parts.drop 22) }
      | _, _, _, _, _, _, _, _, _, _, _, _, _ => none

/-- One iteration of the line loop of `parse_domtblout` (see
`parseDomParts`): comment and empty lines are skipped, the rest is decoded
from the whitespace-split fields of the newline-stripped line. -/
def parseDomLine (line : Str) : Option DomHit :=
  if line.isEmpty || line.head? == some '#' then none
  else parseDomParts (splitWs (pyRStripNl line))

/-- Model of `parse_domtblout` on the file's raw lines. -/
def parse_domtblout (lines : List Str) : List DomHit := lines.filterMap parseDomLine

/-- The comparison used by both best-hit selectors, exactly as in the source:
candidate `h` replaces the held hit `cur` iff
`h.dom_ievalue < cur.dom_ievalue` or they are equal and
`h.dom_score > cur.dom_score`. -/
def hitBetter (h cur : DomHit) : Prop :=
  h.dom_ievalue < cur.dom_ievalue ∨
    (h.dom_ievalue = cur.dom_ievalue ∧ cur.dom_score < h.dom_score)

instance (h cur : DomHit) : Decidable (hitBetter h cur) := by
  unfold hitBetter; infer_instance

/-- One iteration of a best-hit loop at the relevant key: first hit is taken,
a later hit replaces the held one only when strictly better. -/
def bestStep (cur : Option DomHit) (h : DomHit) : Option DomHit :=
  match cur with
  | none => some h
  | some c => if hitBetter h c then some h else some c

/-- One iteration of a best-hit loop as an update of the whole dict. -/
def bestUpd (key : DomHit → Str) (m : Str → Option DomHit) (h : DomHit) :
    Str → Option DomHit :=
  fun k => if k = key h then bestStep (m (key h)) h else m k

/-- A best-hit dict (modelled as a lookup function) built by folding over the
hits in input order, grouping by `key`. -/
def bestBy (key : DomHit → Str) (hits : List DomHit) : Str → Option DomHit :=
  hits.foldl (bestUpd key) (fun _ => none)

/-- Model of `best_hmmsearch_per_seq` on an already-parsed hit list: best hit
per `target_name`. -/
def best_hmmsearch_per_seq (hits : List DomHit) : Str → Option DomHit :=
  bestBy (fun h => h.target_name) hits

/-- Model of `re.sub(r"\..*$", "", acc)`: strip everything from the first
`.` on (`PF01083.23` becomes `PF01083`). -/
def stripVersion (s : Str) : Str := s.takeWhile (fun c => c != '.')

/-- Model of `best_pfam_for_accession` on an already-parsed hit list: filter
to hits whose version-stripped target accession equals the stripped
`pfam_id`, then best hit per `query_name`. -/
def best_pfam_for_accession (hits : List DomHit) (pfam_id : Str) :
    Str → Option DomHit :=
  bestBy (fun h => h.query_name)
    (hits.filter (fun h => stripVersion h.target_acc == pyStrip pfam_id))

/-- Spec-side (claim C1): what it means for `b` to be the selected hit of a
group `g`: member of the group, minimum per-domain independent e-value,
maximum per-domain bit-score among hits sharing that minimum, and first in
input order among hits tied on both. -/
def bestChoiceSpec (g : List DomHit) (b : DomHit) : Prop :=
  b ∈ g ∧
  (∀ h ∈ g, b.dom_ievalue ≤ h.dom_ievalue) ∧
  (∀ h ∈ g, h.dom_ievalue = b.dom_ievalue → h.dom_score ≤ b.dom_score) ∧
  ∃ l1 l2, g = l1 ++ b :: l2 ∧
    ∀ h ∈ l1, ¬(h.dom_ievalue = b.dom_ievalue ∧ h.dom_score = b.dom_score)

/-! ## Signal-Peptide-Summary Parser (`01_make_summary.py`) -/

/-- The per-identifier record of the SignalP summary parser. -/
structure SignalPSummary where
  sp_start : Int
  sp_end : Int
  cleavage_after_aa : Int
  original_len : Int
  new_len : Int
deriving DecidableEq

/-- Decoding of the tab-split fields of one SignalP summary line: fewer than
6 fields or non-integer fields 2-6 drop the line (`.ok none`); the
`sid = parts[0].split()[0]` lookup happens before the `try` block, so a
token-less first field is an uncaught `IndexError` (`.error`). -/
def sigParts (parts : List Str) : Except Unit (Option (Str × SignalPSummary)) :=
  if parts.length < 6 then .ok none
  else
    match splitWs (parts.getD 0 []) with
    | [] => .error ()
    | sid :: _ =>
      match pyInt (parts.getD 1 []), pyInt (parts.getD 2 []),
        pyInt (parts.getD 3 []), pyInt (parts.getD 4 []),
        pyInt (parts.getD 5 []) with
      | some v1, some v2, some v3, some v4, some v5 =>
        .ok (some (sid, ⟨v1, v2, v3, v4, v5⟩))
      | _, _, _, _, _ => .ok none

/-- One iteration of the line loop of `parse_signalp_summary`: strip, skip
blank lines, tab-split and decode (`sigParts`); you get `.ok none` for a
dropped line and `.error` for the uncaught crash on a token-less first
field. -/
def sigProcessLine (line : Str) : Except Unit (Option (Str × SignalPSummary)) :=
  if (pyStrip line).isEmpty then .ok none
  else sigParts (splitOnChar '\t' (pyStrip line))

/-- Dict update `m[sid] = rec` (last write wins on lookup). -/
def sigUpdate (m : Str → Option SignalPSummary) (p : Str × SignalPSummary) :
    Str → Option SignalPSummary :=
  fun k => if k = p.1 then some p.2 else m k

/-- The dict-or-skip effect of one retained-or-dropped line. -/
def sigStep (m : Str → Option SignalPSummary) (line : Str) :
    Except Unit (Str → Option SignalPSummary) :=
  (sigProcessLine line).map (fun o =>
    match o with
    | none => m
    | some p => sigUpdate m p)

/-- Model of `parse_signalp_summary` on the file's raw lines: the first line
is the discarded header, the rest feed the line loop. -/
def parse_signalp_summary (lines : List Str) :
    Except Unit (Str → Option SignalPSummary) :=
  (lines.drop 1).foldlM sigStep (fun _ => none)

/-- The key/record pair a line contributes when it is retained. -/
def sigRetained (line : Str) : Option (Str × SignalPSummary) :=
  match sigProcessLine line with
  | .ok (some p) => some p
  | _ => none

/-- The crash-free view of `sigStep` (justified by `sigProcessLine_no_error`):
update on a retained line, identity otherwise. -/
def sigFoldPure (m : Str → Option SignalPSummary) (line : Str) :
    Str → Option SignalPSummary :=
  match sigRetained line with
  | none => m
  | some p => sigUpdate m p

/-! ## Annotation Join Engine (`01_make_summary.py`, `main`) -/

/-- One output row of the join engine; `none` in an `Option` field is the
explicit empty CSV value. -/
structure SummaryRow where
  sample : Str
  sequence_id : Str
  length_original_aa : Option Int
  length_secreted_trimmed_aa : Option Nat
  length_final_selected_aa : Option Nat
  hmm_query : Option Str
  hmm_full_evalue : Option ℚ
  hmm_full_bitscore : Option ℚ
  hmm_domain_ievalue : Option ℚ
  hmm_domain_bitscore : Option ℚ
  hmm_ali_from : Option Int
  hmm_ali_to : Option Int
  hmm_hmm_from : Option Int
  hmm_hmm_to : Option Int
  hmm_acc : Option ℚ
  has_signal_peptide : Str
  signalp_start : Option Int
  signalp_end : Option Int
  signalp_cleavage_after_aa : Option Int
  signalp_mature_length_aa : Option Int
  pfam_accession : Str
  pfam_hit : Option Str
  pfam_evalue_full : Option ℚ
  pfam_bitscore_full : Option ℚ
  pfam_domain_ievalue : Option ℚ
  pfam_domain_bitscore : Option ℚ
  pfam_ali_from : Option Int
  pfam_ali_to : Option Int
  pfam_desc : Option Str

/-- `selected_len.get(sid, "")` over the selected-FASTA length map, modelled
as an association list (a Python dict has unique keys). -/
def assocLookup (l : List (Str × Nat)) (k : Str) : Option Nat :=
  (l.find? (fun p => p.1 == k)).map (fun p => p.2)

/-- Assembly of one `SummaryRow` for a retained identifier, by
field-for-field lookup with `getattr(obj, field, "")` defaulting, and the
original-length fallback (`original_len.get(sid, "")`, else the SignalP
record's `original_len`, else empty). -/
def mkSummaryRow (sample pfam : Str) (selected : List (Str × Nat))
    (trimmed orig : Str → Option Nat) (sig : Str → Option SignalPSummary)
    (hmmF pfF : Str → Option DomHit) (sid : Str) : SummaryRow :=
  let hmm := hmmF sid
  let pf := pfF sid
  let sp := sig sid
  let orig_len_val : Option Int :=
    match orig sid with
    | some v => some (v : Int)
    | none => sp.map (fun r => r.original_len)
  { sample := sample
    sequence_id := sid
    length_original_aa := orig_len_val
    length_secreted_trimmed_aa := trimmed sid
    length_final_selected_aa := assocLookup selected sid
    hmm_query := hmm.map (fun h => h.query_name)
    hmm_full_evalue := hmm.map (fun h => h.full_evalue)
    hmm_full_bitscore := hmm.map (fun h => h.full_score)
    hmm_domain_ievalue := hmm.map (fun h => h.dom_ievalue)
    hmm_domain_bitscore := hmm.map (fun h => h.dom_score)
    hmm_ali_from := hmm.map (fun h => h.ali_from)
    hmm_ali_to := hmm.map (fun h => h.ali_to)
    hmm_hmm_from := hmm.map (fun h => h.hmm_from)
    hmm_hmm_to := hmm.map (fun h => h.hmm_to)
    hmm_acc := hmm.map (fun h => h.acc)
    has_signal_peptide := if sp.isSome then "yes".toList else "no".toList
    signalp_start := sp.map (fun r => r.sp_start)
    signalp_end := sp.map (fun r => r.sp_end)
    signalp_cleavage_after_aa := sp.map (fun r => r.cleavage_after_aa)
    signalp_mature_length_aa := sp.map (fun r => r.new_len)
    pfam_accession := pfam
    pfam_hit := pf.map (fun h => h.target_name)
    pfam_evalue_full := pf.map (fun h => h.full_evalue)
    pfam_bitscore_full := pf.map (fun h => h.full_score)
    pfam_domain_ievalue := pf.map (fun h => h.dom_ievalue)
    pfam_domain_bitscore := pf.map (fun h => h.dom_score)
    pfam_ali_from := pf.map (fun h => h.ali_from)
    pfam_ali_to := pf.map (fun h => h.ali_to)
    pfam_desc := pf.map (fun h => h.desc) }

/-- The per-sample row loop of `main`: one row per identifier of the selected
length map, in that map's iteration (FASTA) order. -/
def buildRows (sample pfam : Str) (selected : List (Str × Nat))
    (trimmed orig : Str → Option Nat) (sig : Str → Option SignalPSummary)
    (hmmF pfF : Str → Option DomHit) : List SummaryRow :=
  (selected.map Prod.fst).map
    (mkSummaryRow sample pfam selected trimmed orig sig hmmF pfF)

/-- A concrete hit used to exercise the selector: only the grouping names
and the two fields of the comparison rule vary. -/
def testHit (tn qn : Str) (ie sc : ℚ) : DomHit :=
  { target_name := tn, target_acc := "PF01083.23".toList, query_name := qn,
    query_acc := "-".toList, full_evalue := ie, full_score := sc, full_bias := 0,
    dom_ievalue := ie, dom_score := sc, dom_bias := 0,
    hmm_from := 1, hmm_to := 2, ali_from := 1, ali_to := 2,
    env_from := 1, env_to := 2, acc := 0, desc := [] }

/-- Spec-side (claim C8, amended hypothesis): a parsed coordinate pair is
positive and ordered whenever both fields read as integers. -/
def coordPairOk (x y : Option Int) : Bool :=
  match x, y with
  | some a, some b => decide (0 < a) && decide (a ≤ b)
  | _, _ => true

/-- Spec-side (claim C8, amended hypothesis): all three coordinate pairs of a
domain-table line (fields 16-21, 0-based 15-20) are positive and ordered
whenever they read as integers. -/
def specLineSpansOrdered (line : Str) : Bool :=
  let parts := splitWs (pyRStripNl line)
  coordPairOk (pyInt (parts.getD 15 [])) (pyInt (parts.getD 16 [])) &&
  coordPairOk (pyInt (parts.getD 17 [])) (pyInt (parts.getD 18 [])) &&
  coordPairOk (pyInt (parts.getD 19 [])) (pyInt (parts.getD 20 []))

lemma extract_fold_join (seq : Str) (tailMode : Bool) :
    ∀ (rs : List PRange) (acc : List Str),
      (rs.foldl (extractStep seq tailMode) acc).flatten =
        acc.flatten ++ (rs.map (fun r =>
          match r with
          | some p => specWindow seq tailMode p
          | none => [])).flatten := by
  intro rs
  induction rs with
  | nil => intro acc; simp
  | cons r rs ih =>
    intro acc
    rw [List.foldl_cons, ih]
    match r with
    | none => simp [extractStep]
    | some (a, b) =>
      simp only [List.map_cons, List.flatten_cons, extractStep, specWindow]
      by_cases h : (if tailMode then max 1 b else max 1 a) ≤
          (if tailMode then (seq.length : Int) else min (seq.length : Int) b)
      · rw [if_neg (not_lt.mpr h), if_pos h]
        simp [List.append_assoc]
      · rw [if_pos (lt_of_not_le h), if_neg h]
        simp

/-- C3: for a sequence and a range list with no no-cut sentinel and at least
one element, the extractor returns the concatenation, in range-list order and
without re-sorting or deduplication, of the per-range clamped windows
(`[max(1,B), L]` in tail mode, `[max(1,A), min(L,B)]` in normal mode, 1-based
inclusive, a window whose start exceeds its end contributing nothing). -/
theorem extract_segments_concat_windows (seq : Str) (ranges : List PRange)
    (tailMode : Bool) (hns : (none : PRange) ∉ ranges) (hne : ranges ≠ []) :
    extract_segments seq ranges tailMode =
      (ranges.map (fun r =>
        match r with
        | some p => specWindow seq tailMode p
        | none => [])).flatten := by
  have h1 : ¬ (ranges.isEmpty = true) := by
    simp only [List.isEmpty_iff]; exact hne
  have h2 : ¬ (ranges.any (fun r => r.isNone) = true) := by
    simp only [List.any_eq_true, not_exists]
    rintro r ⟨hr, hnone⟩
    cases r with
    | none => exact hns hr
    | some p => simp [Option.isNone] at hnone
  unfold extract_segments
  rw [if_neg h1, if_neg h2]
  simpa using extract_fold_join seq tailMode ranges []

/-- Witness for C3 at a concrete input. -/
theorem extract_segments_concat_windows_witness :
    ((none : PRange) ∉ [some ((2 : Int), (4 : Int)), some (8, 12)] ∧
      ([some ((2 : Int), (4 : Int)), some (8, 12)] : List PRange) ≠ []) ∧
    extract_segments "ABCDEFGHIJ".toList [some (2, 4), some (8, 12)] false =
      (([some ((2 : Int), (4 : Int)), some (8, 12)] : List PRange).map (fun r =>
        match r with
        | some p => specWindow "ABCDEFGHIJ".toList false p
        | none => [])).flatten :=
  ⟨⟨by decide, by decide⟩,
    extract_segments_concat_windows "ABCDEFGHIJ".toList [some (2, 4), some (8, 12)]
      false (by decide) (by decide)⟩

/-- C5: a range list containing at least one no-cut sentinel makes the
extractor return the original sequence unchanged, regardless of the other
ranges, of the sentinel's position, and of tail mode. -/
theorem extract_segments_sentinel_dominates (seq : Str) (ranges : List PRange)
    (tailMode : Bool) (h : (none : PRange) ∈ ranges) :
    extract_segments seq ranges tailMode = seq := by
  have h1 : ¬ (ranges.isEmpty = true) := by
    simp only [List.isEmpty_iff]
    rintro rfl
    simp at h
  have h2 : ranges.any (fun r => r.isNone) = true := by
    simp only [List.any_eq_true]
    exact ⟨none, h, rfl⟩
  unfold extract_segments
  rw [if_neg h1, if_pos h2]

/-- Witness for C5 at a concrete input (sentinel last, tail mode on). -/
theorem extract_segments_sentinel_dominates_witness :
    (none : PRange) ∈ [some ((5 : Int), (10 : Int)), none] ∧
    extract_segments "ABC".toList [some (5, 10), none] true = "ABC".toList :=
  ⟨by decide,
    extract_segments_sentinel_dominates "ABC".toList [some (5, 10), none] true
      (by decide)⟩

lemma processRecord_glob_nil (tailMode : Bool) (idx : Nat) (rec : Str × Str)
    (h : seqId rec.1 ≠ none) :
    processRecord (.glob []) tailMode idx rec = .ok none := by
  match hs : seqId rec.1 with
  | none => exact absurd hs h
  | some sid => simp [processRecord, hs, recordRanges]

lemma mapM_glob_nil_enumFrom (tailMode : Bool) :
    ∀ (records : List (Str × Str)) (n : Nat),
      (∀ r ∈ records, seqId r.1 ≠ none) →
      ((records.enumFrom n).mapM (fun p => processRecord (.glob []) tailMode p.1 p.2)) =
        .ok (records.map (fun _ => (none : Option (Str × Str)))) := by
  intro records
  induction records with
  | nil => intro n _; rfl
  | cons r rs ih =>
    intro n h
    rw [List.enumFrom_cons, List.mapM_cons]
    rw [processRecord_glob_nil tailMode n r (h r (by simp)),
      ih (n + 1) (fun x hx => h x (by simp [hx]))]
    rfl

/-- C9: a positions file with zero content lines (all blank or comments) is
classified as global mode with an empty range list; consequently every FASTA
record is skipped (no ranges, no output record) and no error is raised. -/
theorem positions_file_no_content_global_empty (lines : List Str)
    (h : contentLines lines = []) :
    read_positions_file lines = .ok (.glob []) ∧
    (∀ (tailMode : Bool) (idx : Nat) (rec : Str × Str), seqId rec.1 ≠ none →
      processRecord (.glob []) tailMode idx rec = .ok none) ∧
    (∀ (tailMode : Bool) (records : List (Str × Str)),
      (∀ r ∈ records, seqId r.1 ≠ none) →
      processRecords (.glob []) tailMode records = .ok []) := by
  refine ⟨?_, fun t i r hr => processRecord_glob_nil t i r hr, ?_⟩
  · simp [read_positions_file, h]
  · intro tailMode records hrec
    rw [processRecords, List.enum]
    rw [mapM_glob_nil_enumFrom tailMode records 0 hrec]
    simp [Except.map]

/-- Witness for C9 at a concrete input. -/
theorem positions_file_no_content_global_empty_witness :
    contentLines ["# note".toList, "".toList, "   ".toList] = [] ∧
    processRecords (.glob []) false [("seqA desc".toList, "MKV".toList)] = .ok [] :=
  ⟨by decide,
    (positions_file_no_content_global_empty ["# note".toList, "".toList, "   ".toList]
        (by decide)).2.2 false [("seqA desc".toList, "MKV".toList)]
      (by decide)⟩

/-- C10: in per-identifier mode, a line whose portion after the colon strips
to empty is silently skipped (the dict is unchanged, so records with that
identifier are later skipped for having no ranges), whereas a rest of `-`
maps the stripped identifier to the single no-cut sentinel, which makes the
extractor return the full original sequence. -/
theorem per_id_empty_rest_skipped_sentinel_kept :
    (∀ (d : Str → Option (List PRange)) (ln : Str),
      ln.contains ':' = true →
      pyStrip ((ln.dropWhile (fun c => c != ':')).drop 1) = [] →
      perIdStep d ln = .ok d) ∧
    (∀ (d : Str → Option (List PRange)) (ln : Str),
      ln.contains ':' = true →
      pyStrip ((ln.dropWhile (fun c => c != ':')).drop 1) = ['-'] →
      ∃ d', perIdStep d ln = .ok d' ∧
        d' (pyStrip (ln.takeWhile (fun c => c != ':'))) = some [none] ∧
        ∀ k, k ≠ pyStrip (ln.takeWhile (fun c => c != ':')) → d' k = d k) ∧
    (∀ (d : Str → Option (List PRange)) (tailMode : Bool) (idx : Nat)
      (header seqv sid : Str),
      seqId header = some sid → d sid = none →
      processRecord (.perId d) tailMode idx (header, seqv) = .ok none) ∧
    (∀ (seqv : Str) (tailMode : Bool), extract_segments seqv [none] tailMode = seqv) := by
  refine ⟨?_, ?_, ?_, ?_⟩
  · intro d ln hc hrest
    rw [List.drop_one] at hrest
    have hm : ':' ∈ ln := by simpa using hc
    simp [perIdStep, hm, hrest]
  · intro d ln hc hrest
    rw [List.drop_one] at hrest
    have hm : ':' ∈ ln := by simpa using hc
    refine ⟨fun k => if k = pyStrip (ln.takeWhile (fun c => c != ':')) then some [none]
      else d k, ?_, ?_, ?_⟩
    · simp [perIdStep, hm, hrest]
    · simp
    · intro k hk
      simp [hk]
  · intro d tailMode idx header seqv sid hsid hd
    simp [processRecord, hsid, recordRanges, hd]
  · intro seqv tailMode
    simp [extract_segments]

/-- Witness for C10 at concrete inputs. -/
theorem per_id_empty_rest_skipped_sentinel_kept_witness :
    perIdStep (fun _ => none) "seqA:".toList = .ok (fun _ => none) ∧
    (∃ d', perIdStep (fun _ => none) "seqA:-".toList = .ok d' ∧
      d' (pyStrip ("seqA:-".toList.takeWhile (fun c => c != ':'))) = some [none]) ∧
    processRecord (.perId (fun _ => none)) false 0 ("seqB x".toList, "MKV".toList) =
      .ok none ∧
    extract_segments "MKV".toList [none] true = "MKV".toList := by
  refine ⟨per_id_empty_rest_skipped_sentinel_kept.1 (fun _ => none) "seqA:".toList
      (by decide) (by decide), ?_, ?_, ?_⟩
  · obtain ⟨d', h1, h2, _⟩ := per_id_empty_rest_skipped_sentinel_kept.2.1
      (fun _ => none) "seqA:-".toList (by decide) (by decide)
    exact ⟨d', h1, h2⟩
  · exact per_id_empty_rest_skipped_sentinel_kept.2.2.1 (fun _ => none) false 0
      "seqB x".toList "MKV".toList "seqB".toList (by decide) rfl
  · exact per_id_empty_rest_skipped_sentinel_kept.2.2.2 "MKV".toList true


lemma exceptBind_error {β γ : Type} (e : Unit) (f : β → Except Unit γ) :
    (Except.error e >>= f) = Except.error e := rfl

lemma exceptBind_ok {β γ : Type} (b : β) (f : β → Except Unit γ) :
    (Except.ok b >>= f) = f b := rfl

lemma perIdStep_no_colon (d : Str → Option (List PRange)) (ln : Str)
    (h : ln.contains ':' = false) : perIdStep d ln = .ok d := by
  have hm : ':' ∉ ln := by simpa using h
  simp [perIdStep, hm]

lemma foldlM_perIdStep_filter :
    ∀ (ls : List Str) (m : Str → Option (List PRange)),
      ls.foldlM perIdStep m =
        (ls.filter (fun ln => ln.contains ':')).foldlM perIdStep m := by
  intro ls
  induction ls with
  | nil => intro m; rfl
  | cons ln ls ih =>
    intro m
    by_cases h : ln.contains ':' = true
    · have hm : ':' ∈ ln := by simpa using h
      have hfil : List.filter (fun ln => ln.contains ':') (ln :: ls) =
          ln :: List.filter (fun ln => ln.contains ':') ls := by
        simp [List.filter_cons, hm]
      rw [hfil, List.foldlM_cons, List.foldlM_cons]
      cases hs : perIdStep m ln with
      | error e => rw [exceptBind_error, exceptBind_error]
      | ok d => rw [exceptBind_ok, exceptBind_ok]; exact ih d
    · have hf : ln.contains ':' = false := by simpa using h
      have hm : ':' ∉ ln := by simpa using hf
      have hfil : List.filter (fun ln => ln.contains ':') (ln :: ls) =
          List.filter (fun ln => ln.contains ':') ls := by
        simp [List.filter_cons, hm]
      rw [hfil, List.foldlM_cons, perIdStep_no_colon m ln hf, exceptBind_ok]
      exact ih m

lemma mapM_ok_length_getD {α β : Type} (f : α → Except Unit β) (da : α) (db : β) :
    ∀ (l : List α) (o : List β), l.mapM f = .ok o →
      o.length = l.length ∧
      ∀ i, i < l.length → f (l.getD i da) = .ok (o.getD i db) := by
  intro l
  induction l with
  | nil =>
    intro o h
    rw [List.mapM_nil] at h
    have ho : o = [] := (Except.ok.inj h).symm
    subst ho
    exact ⟨rfl, fun i hi => by simp at hi⟩
  | cons a l ih =>
    intro o h
    rw [List.mapM_cons] at h
    cases hfa : f a with
    | error e =>
      rw [hfa, exceptBind_error] at h
      exact Except.noConfusion h
    | ok b =>
      rw [hfa, exceptBind_ok] at h
      cases hml : l.mapM f with
      | error e =>
        rw [hml, exceptBind_error] at h
        exact Except.noConfusion h
      | ok bs =>
        rw [hml, exceptBind_ok] at h
        have hobs : o = b :: bs := (Except.ok.inj h).symm
        subst hobs
        obtain ⟨hlen, hidx⟩ := ih bs hml
        refine ⟨by simp [hlen], ?_⟩
        intro i hi
        cases i with
        | zero => exact hfa
        | succ j => exact hidx j (by simpa using hi)

/-- C4: the positions-file classifier is a three-way tagged classification on
the content lines: any colon makes the whole file per-identifier mode with
colonless content lines ignored; otherwise exactly one content line is
global-single-rule mode, whose ranges apply identically to every record;
otherwise (several content lines, no colon) the file is ordered-by-record
mode, line N supplying the spec of the N-th record and records beyond the
last line receiving no ranges and being skipped. -/
theorem positions_mode_classification (lines : List Str) :
    ((contentLines lines).any (fun ln => ln.contains ':') = true →
      read_positions_file lines =
        (((contentLines lines).filter (fun ln => ln.contains ':')).foldlM perIdStep
          (fun _ => none)).map .perId) ∧
    ((contentLines lines).any (fun ln => ln.contains ':') = false →
      ∀ ln, contentLines lines = [ln] →
        read_positions_file lines = (parse_positions_arg ln).map .glob ∧
        ∀ (g : List PRange), parse_positions_arg ln = .ok g →
          ∀ (idx : Nat) (sid : Str), recordRanges (.glob g) idx sid = g) ∧
    ((contentLines lines).any (fun ln => ln.contains ':') = false →
      2 ≤ (contentLines lines).length →
      read_positions_file lines =
        ((contentLines lines).mapM orderedLine).map .ordered ∧
      ∀ o, (contentLines lines).mapM orderedLine = .ok o →
        o.length = (contentLines lines).length ∧
        (∀ i, i < o.length →
          orderedLine ((contentLines lines).getD i []) = .ok (o.getD i []) ∧
          ∀ sid, recordRanges (.ordered o) i sid = o.getD i []) ∧
        (∀ (tailMode : Bool) (idx : Nat) (rec : Str × Str), o.length ≤ idx →
          seqId rec.1 ≠ none →
          processRecord (.ordered o) tailMode idx rec = .ok none)) := by
  refine ⟨?_, ?_, ?_⟩
  · intro h
    simp only [read_positions_file]
    rw [if_pos h, ← foldlM_perIdStep_filter]
  · intro h ln hln
    constructor
    · simp only [read_positions_file]
      rw [hln]
      have hany : ([ln].any (fun l => l.contains ':')) = false := by
        rw [← hln]; exact h
      rw [if_neg (by simpa using hany)]
    · intro g _ idx sid
      rfl
  · intro h hlen
    match hls : contentLines lines with
    | [] => rw [hls] at hlen; simp at hlen
    | [a] => rw [hls] at hlen; simp at hlen
    | a :: b :: t =>
      have hany : ((a :: b :: t).any (fun l => l.contains ':')) = false := by
        rw [← hls]; exact h
      constructor
      · simp only [read_positions_file]
        rw [hls, if_neg (by simpa using hany)]
      · intro o hmap
        obtain ⟨holen, hidx⟩ :=
          mapM_ok_length_getD orderedLine ([] : Str) ([] : List PRange)
            (a :: b :: t) o hmap
        refine ⟨holen, ?_, ?_⟩
        · intro i hi
          refine ⟨hidx i (by omega), ?_⟩
          intro sid
          simp [recordRanges, hi]
        · intro tailMode idx rec hge hsid
          cases hsid2 : seqId rec.1 with
          | none => exact absurd hsid2 hsid
          | some sid =>
            simp [processRecord, hsid2, recordRanges,
              show ¬ idx < o.length from by omega]

/-- Witness for C4: one concrete positions file per addressing mode. -/
theorem positions_mode_classification_witness :
    (read_positions_file ["x:1-2".toList] =
      (((contentLines ["x:1-2".toList]).filter (fun ln => ln.contains ':')).foldlM
        perIdStep (fun _ => none)).map .perId) ∧
    (read_positions_file ["  # c".toList, "3-8".toList] =
      (parse_positions_arg "3-8".toList).map .glob) ∧
    (recordRanges (.glob [some (3, 8)]) 5 "q".toList = [some (3, 8)]) ∧
    (read_positions_file ["10-20".toList, "-".toList] =
      ((contentLines ["10-20".toList, "-".toList]).mapM orderedLine).map .ordered) ∧
    (processRecord (.ordered [[some ((10 : Int), (20 : Int))], [(none : PRange)]])
      false 2 ("s".toList, "AB".toList) = .ok none) := by
  have t1 := (positions_mode_classification ["x:1-2".toList]).1 (by decide)
  have t2 := (positions_mode_classification ["  # c".toList, "3-8".toList]).2.1
    (by decide) "3-8".toList (by decide)
  have t3 := (positions_mode_classification ["10-20".toList, "-".toList]).2.2
    (by decide) (by decide)
  refine ⟨t1, t2.1, t2.2 [some (3, 8)] rfl 5 "q".toList, t3.1, ?_⟩
  exact (t3.2 [[some ((10 : Int), (20 : Int))], [(none : PRange)]]
    rfl).2.2 false 2 ("s".toList, "AB".toList) (by decide) (by decide)

lemma parse_pieces_fold :
    ∀ (ps : List Str) (acc : List PRange),
      (ps.foldlM parseStep acc = .error () ↔
        ∃ p ∈ ps, pyStrip p ≠ [] ∧ pyStrip p ≠ ['-'] ∧
          parse_range (pyStrip p) = .error ()) ∧
      ∀ l, ps.foldlM parseStep acc = .ok l → l = acc ++ ps.filterMap pieceValue := by
  intro ps
  induction ps with
  | nil =>
    intro acc
    constructor
    · constructor
      · intro h; exact Except.noConfusion h
      · rintro ⟨p, hp, -⟩; simp at hp
    · intro l h
      have : acc = l := Except.ok.inj h
      simp [← this]
  | cons p ps ih =>
    intro acc
    rw [List.foldlM_cons]
    by_cases hemp : (pyStrip p).isEmpty = true
    · have hnil : pyStrip p = [] := by simpa using hemp
      have hstep : parseStep acc p = .ok acc := by simp [parseStep, hemp]
      rw [hstep, exceptBind_ok]
      constructor
      · rw [(ih acc).1]
        constructor
        · rintro ⟨q, hq, h⟩; exact ⟨q, by simp [hq], h⟩
        · rintro ⟨q, hq, h⟩
          rcases List.mem_cons.mp hq with rfl | hq'
          · exact absurd hnil h.1
          · exact ⟨q, hq', h⟩
      · intro l hl
        rw [(ih acc).2 l hl]
        simp [pieceValue, hemp]
    · by_cases hdash : (pyStrip p == ['-']) = true
      · have hstep : parseStep acc p = .ok (acc ++ [(none : PRange)]) := by
          simp [parseStep, hemp, hdash]
        rw [hstep, exceptBind_ok]
        have hde : pyStrip p = ['-'] := by simpa using hdash
        constructor
        · rw [(ih (acc ++ [(none : PRange)])).1]
          constructor
          · rintro ⟨q, hq, h⟩; exact ⟨q, by simp [hq], h⟩
          · rintro ⟨q, hq, h⟩
            rcases List.mem_cons.mp hq with rfl | hq'
            · exact absurd hde h.2.1
            · exact ⟨q, hq', h⟩
        · intro l hl
          rw [(ih (acc ++ [(none : PRange)])).2 l hl]
          simp [pieceValue, hemp, hdash]
      · cases hpr : parse_range (pyStrip p) with
        | error e =>
          cases e
          have hstep : parseStep acc p = .error () := by
            simp [parseStep, hemp, hdash, hpr, Except.map]
          rw [hstep, exceptBind_error]
          constructor
          · constructor
            · intro _
              exact ⟨p, by simp, by simpa using hemp, by simpa using hdash, hpr⟩
            · intro _; rfl
          · intro l hl; exact Except.noConfusion hl
        | ok ab =>
          have hstep : parseStep acc p = .ok (acc ++ [some ab]) := by
            simp [parseStep, hemp, hdash, hpr, Except.map]
          rw [hstep, exceptBind_ok]
          constructor
          · rw [(ih (acc ++ [some ab])).1]
            constructor
            · rintro ⟨q, hq, h⟩; exact ⟨q, by simp [hq], h⟩
            · rintro ⟨q, hq, h⟩
              rcases List.mem_cons.mp hq with rfl | hq'
              · rw [hpr] at h; exact Except.noConfusion h.2.2
              · exact ⟨q, hq', h⟩
          · intro l hl
            rw [(ih (acc ++ [some ab])).2 l hl]
            simp [pieceValue, hemp, hdash, hpr]

/-- C6 counterexample: on the spec string `-5-3` decoding raises the fatal
error even though its only (non-empty, non-sentinel) piece is two integers
(`-5` and `3`) separated by one hyphen, refuting `raises a fatal error
exactly when some non-empty piece is not exactly two integers separated by
one hyphen`. -/
theorem parse_positions_arg_counterexample :
    parse_positions_arg "-5-3".toList = .error () ∧
    splitOnChar ',' (pyStrip "-5-3".toList) = ["-5-3".toList] ∧
    pyStrip "-5-3".toList ≠ [] ∧
    pyStrip "-5-3".toList ≠ ['-'] ∧
    specPieceWellFormed "-5-3".toList = true :=
  ⟨rfl, rfl, by decide, by decide, by decide⟩

/-- C6 (amended): decoding a spec string produces the ordered list of the
values of its comma-separated pieces (skipped when all-whitespace, the no-cut
sentinel for a bare `-`, the `parse_range` pair otherwise), and it raises the
fatal error exactly when some non-empty, non-`-` piece fails `parse_range`,
i.e. the texts before and after the piece's first hyphen do not both parse as
integers. -/
theorem parse_positions_arg_spec (s : Str) :
    (parse_positions_arg s = .error () ↔
      ∃ p ∈ splitOnChar ',' (pyStrip s),
        pyStrip p ≠ [] ∧ pyStrip p ≠ ['-'] ∧ parse_range (pyStrip p) = .error ()) ∧
    ∀ l, parse_positions_arg s = .ok l →
      l = (splitOnChar ',' (pyStrip s)).filterMap pieceValue := by
  by_cases hs : (pyStrip s).isEmpty = true
  · have hnil : pyStrip s = [] := by simpa using hs
    have hpa : parse_positions_arg s = .ok [] := by simp [parse_positions_arg, hs]
    constructor
    · rw [hpa]
      constructor
      · intro h; exact Except.noConfusion h
      · rintro ⟨p, hp, h⟩
        rw [hnil] at hp
        have : p = [] := by simpa [splitOnChar] using hp
        rw [this] at h
        exact absurd rfl h.1
    · intro l hl
      rw [hpa] at hl
      have : l = [] := (Except.ok.inj hl).symm
      rw [this, hnil]
      decide
  · have hpa : parse_positions_arg s = (splitOnChar ',' (pyStrip s)).foldlM parseStep [] := by
      simp [parse_positions_arg, hs]
    rw [hpa]
    obtain ⟨h1, h2⟩ := parse_pieces_fold (splitOnChar ',' (pyStrip s)) []
    exact ⟨h1, fun l hl => by simpa using h2 l hl⟩

/-- Witness for C6 at concrete inputs: a successful decode matching the
piece-value list, and a fatally malformed input. -/
theorem parse_positions_arg_spec_witness :
    parse_positions_arg "3-7, - ,10-12".toList =
      .ok [some (3, 7), none, some (10, 12)] ∧
    ([some ((3 : Int), (7 : Int)), none, some (10, 12)] : List PRange) =
      (splitOnChar ',' (pyStrip "3-7, - ,10-12".toList)).filterMap pieceValue ∧
    parse_positions_arg "xy".toList = .error () := by
  refine ⟨rfl, (parse_positions_arg_spec "3-7, - ,10-12".toList).2 _ rfl, ?_⟩
  exact (parse_positions_arg_spec "xy".toList).1.mpr
    ⟨"xy".toList, by decide, by decide, by decide, rfl⟩

/-- `b` is at least as good as `h` in the selector's order: strictly smaller
e-value, or equal e-value and at-least-as-large score. -/
def hitLE (b h : DomHit) : Prop :=
  b.dom_ievalue < h.dom_ievalue ∨
    (b.dom_ievalue = h.dom_ievalue ∧ h.dom_score ≤ b.dom_score)

lemma hitLE_refl (b : DomHit) : hitLE b b := Or.inr ⟨rfl, le_refl _⟩

lemma hitLE_of_hitBetter {a b : DomHit} (h : hitBetter a b) : hitLE a b := by
  rcases h with h | ⟨h1, h2⟩
  · exact Or.inl h
  · exact Or.inr ⟨h1, le_of_lt h2⟩

lemma hitLE_of_not_hitBetter {a b : DomHit} (h : ¬ hitBetter a b) : hitLE b a := by
  unfold hitBetter at h
  push_neg at h
  rcases eq_or_lt_of_le h.1 with heq | hlt
  · exact Or.inr ⟨heq, h.2 heq.symm⟩
  · exact Or.inl hlt

lemma hitBetter_of_hitLE_of_hitBetter {a b c : DomHit}
    (h1 : hitLE a b) (h2 : hitBetter b c) : hitBetter a c := by
  rcases h1 with h1 | ⟨h1a, h1b⟩ <;> rcases h2 with h2 | ⟨h2a, h2b⟩
  · exact Or.inl (lt_trans h1 h2)
  · exact Or.inl (lt_of_lt_of_le h1 (le_of_eq h2a))
  · exact Or.inl (lt_of_le_of_lt (le_of_eq h1a) h2)
  · exact Or.inr ⟨h1a.trans h2a, lt_of_lt_of_le h2b h1b⟩

lemma hitBetter_of_hitBetter_of_hitLE {a b c : DomHit}
    (h1 : hitBetter a b) (h2 : hitLE b c) : hitBetter a c := by
  rcases h1 with h1 | ⟨h1a, h1b⟩ <;> rcases h2 with h2 | ⟨h2a, h2b⟩
  · exact Or.inl (lt_trans h1 h2)
  · exact Or.inl (lt_of_lt_of_le h1 (le_of_eq h2a))
  · exact Or.inl (lt_of_le_of_lt (le_of_eq h1a) h2)
  · exact Or.inr ⟨h1a.trans h2a, lt_of_le_of_lt h2b h1b⟩

lemma hitLE_trans {a b c : DomHit} (h1 : hitLE a b) (h2 : hitLE b c) :
    hitLE a c := by
  rcases h1 with h1 | ⟨h1a, h1b⟩ <;> rcases h2 with h2 | ⟨h2a, h2b⟩
  · exact Or.inl (lt_trans h1 h2)
  · exact Or.inl (lt_of_lt_of_le h1 (le_of_eq h2a))
  · exact Or.inl (lt_of_le_of_lt (le_of_eq h1a) h2)
  · exact Or.inr ⟨h1a.trans h2a, le_trans h2b h1b⟩

lemma bestFold_spec :
    ∀ (t : List DomHit) (cur : DomHit),
      ∃ b, t.foldl bestStep (some cur) = some b ∧
        (∀ h ∈ cur :: t, hitLE b h) ∧
        ∃ l1 l2, cur :: t = l1 ++ b :: l2 ∧ ∀ h ∈ l1, hitBetter b h := by
  intro t
  induction t with
  | nil =>
    intro cur
    exact ⟨cur, rfl, by simpa using hitLE_refl cur, [], [], rfl, by simp⟩
  | cons h t ih =>
    intro cur
    rw [List.foldl_cons]
    by_cases hb : hitBetter h cur
    · have hstep : bestStep (some cur) h = some h := by simp [bestStep, hb]
      rw [hstep]
      obtain ⟨b, hfold, hmin, l1, l2, hdec, hlt⟩ := ih h
      have hbh : hitLE b h := hmin h (by simp)
      have hbcur : hitBetter b cur := hitBetter_of_hitLE_of_hitBetter hbh hb
      refine ⟨b, hfold, ?_, cur :: l1, l2, by rw [List.cons_append, ← hdec], ?_⟩
      · intro x hx
        rcases List.mem_cons.mp hx with rfl | hx'
        · exact hitLE_of_hitBetter hbcur
        · exact hmin x hx'
      · intro x hx
        rcases List.mem_cons.mp hx with rfl | hx'
        · exact hbcur
        · exact hlt x hx'
    · have hstep : bestStep (some cur) h = some cur := by simp [bestStep, hb]
      rw [hstep]
      obtain ⟨b, hfold, hmin, l1, l2, hdec, hlt⟩ := ih cur
      have hcurh : hitLE cur h := hitLE_of_not_hitBetter hb
      have hbcur : hitLE b cur := hmin cur (by simp)
      have hbh : hitLE b h := hitLE_trans hbcur hcurh
      refine ⟨b, hfold, ?_, ?_⟩
      · intro x hx
        rcases List.mem_cons.mp hx with rfl | hx'
        · exact hbcur
        rcases List.mem_cons.mp hx' with rfl | hx''
        · exact hbh
        · exact hmin x (by simp [hx''])
      · match l1, hdec with
        | [], hdec =>
          have hcb : cur = b := by injection hdec with h1 h2
          have ht : t = l2 := by injection hdec with h1 h2
          exact ⟨[], h :: l2, by rw [← hcb, ← ht]; simp, by simp⟩
        | a :: l1', hdec =>
          have hca : cur = a := by injection hdec with h1 h2
          have ht : t = l1' ++ b :: l2 := by injection hdec with h1 h2
          have hltcur : hitBetter b cur := by
            rw [hca]; exact hlt a (by simp)
          refine ⟨cur :: h :: l1', l2, by rw [ht]; simp, ?_⟩
          intro x hx
          rcases List.mem_cons.mp hx with rfl | hx'
          · exact hltcur
          rcases List.mem_cons.mp hx' with rfl | hx''
          · exact hitBetter_of_hitBetter_of_hitLE hltcur hcurh
          · exact hlt x (by simp [hca, hx''])

lemma bestBy_eq_filter (key : DomHit → Str) :
    ∀ (hits : List DomHit) (m : Str → Option DomHit) (k : Str),
      (hits.foldl (bestUpd key) m) k =
        (hits.filter (fun h => key h == k)).foldl bestStep (m k) := by
  intro hits
  induction hits with
  | nil => intro m k; rfl
  | cons h hits ih =>
    intro m k
    rw [List.foldl_cons, ih]
    by_cases hk : key h = k
    · have hfil : List.filter (fun h => key h == k) (h :: hits) =
          h :: List.filter (fun h => key h == k) hits := by
        simp [List.filter_cons, hk]
      rw [hfil, List.foldl_cons]
      have : bestUpd key m h k = bestStep (m k) h := by
        simp [bestUpd, hk]
      rw [this]
    · have hfil : List.filter (fun h => key h == k) (h :: hits) =
          List.filter (fun h => key h == k) hits := by
        simp [List.filter_cons, hk]
      rw [hfil]
      have : bestUpd key m h k = m k := by
        simp [bestUpd]
        intro he
        exact absurd he.symm hk
      rw [this]

lemma bestBy_some_spec (key : DomHit → Str) (hits : List DomHit) (k : Str)
    (b : DomHit) (hb : bestBy key hits k = some b) :
    bestChoiceSpec (hits.filter (fun h => key h == k)) b := by
  rw [bestBy, bestBy_eq_filter key hits (fun _ => none) k] at hb
  cases hgc : hits.filter (fun h => key h == k) with
  | nil =>
    rw [hgc] at hb
    simp at hb
  | cons x t =>
    rw [hgc] at hb
    rw [List.foldl_cons] at hb
    have hstep : bestStep (none : Option DomHit) x = some x := rfl
    rw [hstep] at hb
    obtain ⟨b', hfold, hmin, l1, l2, hdec, hlt⟩ := bestFold_spec t x
    rw [hfold] at hb
    have hbb : b' = b := Option.some.inj hb
    subst hbb
    refine ⟨by rw [hdec]; simp, ?_, ?_, l1, l2, hdec, ?_⟩
    · intro h hh
      rcases hmin h hh with hc | ⟨hc, _⟩
      · exact le_of_lt hc
      · exact le_of_eq hc
    · intro h hh hie
      rcases hmin h hh with hc | ⟨_, hc⟩
      · exact absurd hie (by intro he; rw [he] at hc; exact lt_irrefl _ hc)
      · exact hc
    · intro h hh
      rintro ⟨hie, hsc⟩
      rcases hlt h hh with hc | ⟨_, hc⟩
      · rw [hie] at hc; exact lt_irrefl _ hc
      · rw [hsc] at hc; exact lt_irrefl _ hc

/-- C1: for every hit list and every group - grouped by `target_name` in
best-per-target mode, or by `query_name` among hits whose version-stripped
target accession equals the supplied family accession in the filtered mode -
the selected hit is a member of the group with the minimum per-domain
independent e-value; among hits sharing that minimum it has the maximum
per-domain bit-score; among hits tied on both it is the first in input
order (so nothing besides those two fields and input order determines it). -/
theorem best_hit_selection (hits : List DomHit) (pfam k : Str) (b : DomHit) :
    (best_hmmsearch_per_seq hits k = some b →
      bestChoiceSpec (hits.filter (fun h => h.target_name == k)) b) ∧
    (best_pfam_for_accession hits pfam k = some b →
      bestChoiceSpec
        ((hits.filter (fun h => stripVersion h.target_acc == pyStrip pfam)).filter
          (fun h => h.query_name == k)) b) := by
  constructor
  · intro hb
    exact bestBy_some_spec (fun h => h.target_name) hits k b hb
  · intro hb
    exact bestBy_some_spec (fun h => h.query_name)
      (hits.filter (fun h => stripVersion h.target_acc == pyStrip pfam)) k b hb

/-- Witness for C1 at a concrete input: three hits, two in the group, the
lower-e-value one selected, in both selector modes. -/
theorem best_hit_selection_witness :
    best_hmmsearch_per_seq
        [testHit "p1".toList "q".toList 1 5, testHit "p1".toList "q".toList 0 3,
          testHit "p2".toList "q".toList 1 1] "p1".toList =
      some (testHit "p1".toList "q".toList 0 3) ∧
    bestChoiceSpec
      ([testHit "p1".toList "q".toList 1 5, testHit "p1".toList "q".toList 0 3,
        testHit "p2".toList "q".toList 1 1].filter
        (fun h => h.target_name == "p1".toList))
      (testHit "p1".toList "q".toList 0 3) ∧
    best_pfam_for_accession
        [testHit "p1".toList "q".toList 1 5, testHit "p1".toList "q".toList 0 3]
        "PF01083".toList "q".toList =
      some (testHit "p1".toList "q".toList 0 3) ∧
    bestChoiceSpec
      (([testHit "p1".toList "q".toList 1 5,
          testHit "p1".toList "q".toList 0 3].filter
          (fun h => stripVersion h.target_acc == pyStrip "PF01083".toList)).filter
        (fun h => h.query_name == "q".toList))
      (testHit "p1".toList "q".toList 0 3) := by
  refine ⟨by decide, ?_, by decide, ?_⟩
  · exact (best_hit_selection
      [testHit "p1".toList "q".toList 1 5, testHit "p1".toList "q".toList 0 3,
        testHit "p2".toList "q".toList 1 1] "PF01083".toList "p1".toList
      (testHit "p1".toList "q".toList 0 3)).1 (by decide)
  · exact (best_hit_selection
      [testHit "p1".toList "q".toList 1 5, testHit "p1".toList "q".toList 0 3]
      "PF01083".toList "q".toList (testHit "p1".toList "q".toList 0 3)).2 (by decide)

lemma coordPairOk_some {a b : Int} (h : coordPairOk (some a) (some b) = true) :
    0 < a ∧ a ≤ b := by
  simpa [coordPairOk] using h

/-- C8 counterexample: the domain-table parser performs no validation of the
coordinate columns, so a 22-field line with `hmm_from = 5 > hmm_to = 3`
produces a `DomHit` violating the claimed invariant. -/
theorem parse_domtblout_counterexample :
    (parse_domtblout
        ["t PF1.1 x q qa x 1.0 2.0 0.0 a b c 1e-5 8.5 0.0 5 3 1 2 1 2 0.90".toList]).map
      (fun h => (h.hmm_from, h.hmm_to)) = [(5, 3)] ∧
    ¬ ((parse_domtblout
        ["t PF1.1 x q qa x 1.0 2.0 0.0 a b c 1e-5 8.5 0.0 5 3 1 2 1 2 0.90".toList]).all
      (fun h =>
        decide (0 < h.hmm_from) && decide (h.hmm_from ≤ h.hmm_to) &&
        decide (0 < h.ali_from) && decide (h.ali_from ≤ h.ali_to) &&
        decide (0 < h.env_from) && decide (h.env_from ≤ h.env_to)) = true) := by
  decide

/-- C8 (amended): whenever every input line whose coordinate fields read as
integers carries positive, ordered pairs, every `DomHit` the parser produces
has strictly positive spans with from distinct-or-below to
(`0 < from ∧ from ≤ to` for the HMM, alignment and envelope pairs); the
parser itself copies the fields verbatim and enforces nothing. -/
theorem parse_domtblout_spans (lines : List Str)
    (hc : ∀ line ∈ lines, specLineSpansOrdered line = true) :
    ∀ h ∈ parse_domtblout lines,
      (0 < h.hmm_from ∧ h.hmm_from ≤ h.hmm_to) ∧
      (0 < h.ali_from ∧ h.ali_from ≤ h.ali_to) ∧
      (0 < h.env_from ∧ h.env_from ≤ h.env_to) := by
  intro h hmem
  rw [parse_domtblout, List.mem_filterMap] at hmem
  obtain ⟨line, hline, hp⟩ := hmem
  have hok := hc line hline
  rw [specLineSpansOrdered] at hok
  simp only [Bool.and_eq_true] at hok
  rw [parseDomLine] at hp
  split at hp
  · exact Option.noConfusion hp
  · rw [parseDomParts] at hp
    split at hp
    · exact Option.noConfusion hp
    · split at hp
      case _ fe fs fb die ds db hf ht af ato ef et pacc heq6 heq7 heq8 heq12
          heq13 heq14 heq15 heq16 heq17 heq18 heq19 heq20 heq21 =>
        have hh := Option.some.inj hp
        obtain ⟨h1, h2⟩ := coordPairOk_some (by rw [heq15, heq16] at hok; exact hok.1.1)
        obtain ⟨h3, h4⟩ := coordPairOk_some (by rw [heq17, heq18] at hok; exact hok.1.2)
        obtain ⟨h5, h6⟩ := coordPairOk_some (by rw [heq19, heq20] at hok; exact hok.2)
        rw [← hh]
        exact ⟨⟨h1, h2⟩, ⟨h3, h4⟩, ⟨h5, h6⟩⟩
      case _ => exact Option.noConfusion hp

/-- Witness for C8's amended theorem at a concrete well-formed line. -/
theorem parse_domtblout_spans_witness :
    (∀ line ∈
        ["t PF1.1 x q qa x 1.0 2.0 0.0 a b c 1e-5 8.5 0.0 1 5 2 6 1 7 0.90".toList],
      specLineSpansOrdered line = true) ∧
    ∀ h ∈ parse_domtblout
        ["t PF1.1 x q qa x 1.0 2.0 0.0 a b c 1e-5 8.5 0.0 1 5 2 6 1 7 0.90".toList],
      (0 < h.hmm_from ∧ h.hmm_from ≤ h.hmm_to) ∧
      (0 < h.ali_from ∧ h.ali_from ≤ h.ali_to) ∧
      (0 < h.env_from ∧ h.env_from ≤ h.env_to) :=
  ⟨by decide,
    parse_domtblout_spans
      ["t PF1.1 x q qa x 1.0 2.0 0.0 a b c 1e-5 8.5 0.0 1 5 2 6 1 7 0.90".toList]
      (by decide)⟩

lemma dropWhile_head_not (p : Char → Bool) :
    ∀ (l : List Char) (c : Char) (t : List Char),
      l.dropWhile p = c :: t → p c = false := by
  intro l
  induction l with
  | nil => intro c t h; exact List.noConfusion h
  | cons a l ih =>
    intro c t h
    rw [List.dropWhile_cons] at h
    by_cases hp : p a = true
    · rw [if_pos hp] at h
      exact ih c t h
    · rw [if_neg hp] at h
      have hac : a = c := (List.cons.inj h).1
      rw [← hac]
      simpa using hp

lemma reverse_dropWhile_reverse_prefix (u : List Char) (p : Char → Bool) :
    ∃ r, u = (u.reverse.dropWhile p).reverse ++ r := by
  refine ⟨(u.reverse.takeWhile p).reverse, ?_⟩
  calc u = u.reverse.reverse := (List.reverse_reverse u).symm
    _ = ((u.reverse.takeWhile p) ++ (u.reverse.dropWhile p)).reverse := by
        rw [List.takeWhile_append_dropWhile]
    _ = (u.reverse.dropWhile p).reverse ++ (u.reverse.takeWhile p).reverse :=
        List.reverse_append _ _

lemma pyStrip_head (l : Str) (c : Char) (t : Str) (h : pyStrip l = c :: t) :
    pyIsSpace c = false := by
  unfold pyStrip at h
  obtain ⟨r, hr⟩ :=
    reverse_dropWhile_reverse_prefix (l.dropWhile pyIsSpace) pyIsSpace
  rw [h] at hr
  exact dropWhile_head_not pyIsSpace l c (t ++ r) (by rw [hr]; rfl)

lemma splitOnChar_ne_nil (sep : Char) (l : Str) : splitOnChar sep l ≠ [] := by
  cases l with
  | nil => simp [splitOnChar]
  | cons c t =>
    rw [splitOnChar]
    by_cases h : (c == sep) = true
    · simp [h]
    · rw [if_neg h]
      cases hs : splitOnChar sep t with
      | nil => simp
      | cons f fs => simp

lemma splitOnChar_cons_head (sep c : Char) (t : Str) (h : (c == sep) = false) :
    ∃ f fs, splitOnChar sep (c :: t) = (c :: f) :: fs := by
  rw [splitOnChar, if_neg (by simp [h])]
  cases hs : splitOnChar sep t with
  | nil => exact ⟨[], [], rfl⟩
  | cons f fs => exact ⟨f, fs, rfl⟩

lemma splitWsAux_ne_nil : ∀ (l : Str) (acc : Str), acc ≠ [] → splitWsAux l acc ≠ [] := by
  intro l
  induction l with
  | nil =>
    intro acc hacc
    rw [splitWsAux, if_neg (by simpa using hacc)]
    simp
  | cons c t ih =>
    intro acc hacc
    rw [splitWsAux]
    by_cases hc : pyIsSpace c = true
    · rw [if_pos hc, if_neg (by simpa using hacc)]
      simp
    · rw [if_neg hc]
      exact ih (c :: acc) (by simp)

lemma splitWs_cons_ne_nil (c : Char) (f : Str) (h : pyIsSpace c = false) :
    splitWs (c :: f) ≠ [] := by
  rw [splitWs, splitWsAux, if_neg (by simp [h])]
  exact splitWsAux_ne_nil f [c] (by simp)

lemma sigProcessLine_no_error (line : Str) : sigProcessLine line ≠ .error () := by
  rw [sigProcessLine]
  by_cases hemp : (pyStrip line).isEmpty = true
  · rw [if_pos hemp]; intro h; exact Except.noConfusion h
  · rw [if_neg hemp]
    match hps : pyStrip line with
    | [] => rw [hps] at hemp; simp at hemp
    | c :: t =>
      have hcs : pyIsSpace c = false := pyStrip_head line c t hps
      have hct : (c == '\t') = false := by
        cases hbe : (c == '\t') with
        | false => rfl
        | true =>
          have : c = '\t' := by simpa using hbe
          rw [this] at hcs
          simp [pyIsSpace] at hcs
      obtain ⟨f, fs, hsplit⟩ := splitOnChar_cons_head '\t' c t hct
      rw [sigParts]
      by_cases hlen : (splitOnChar '\t' (c :: t)).length < 6
      · rw [if_pos hlen]; intro h; exact Except.noConfusion h
      · rw [if_neg hlen, hsplit]
        have hgd : (((c :: f) :: fs).getD 0 []) = c :: f := rfl
        rw [hgd]
        match hws : splitWs (c :: f) with
        | [] => exact absurd hws (splitWs_cons_ne_nil c f hcs)
        | sid :: rest =>
          cases h1 : pyInt ((((c :: f) :: fs)).getD 1 []) <;>
            cases h2 : pyInt ((((c :: f) :: fs)).getD 2 []) <;>
            cases h3 : pyInt ((((c :: f) :: fs)).getD 3 []) <;>
            cases h4 : pyInt ((((c :: f) :: fs)).getD 4 []) <;>
            cases h5 : pyInt ((((c :: f) :: fs)).getD 5 []) <;>
            simp_all

lemma countP_beq_nodup (l : List Str) (x : Str) (hnd : l.Nodup) :
    l.countP (fun q => q == x) = if x ∈ l then 1 else 0 := by
  induction l with
  | nil => simp
  | cons a l ih =>
    have hnd' := List.nodup_cons.mp hnd
    rw [List.countP_cons, ih hnd'.2]
    by_cases hax : a = x
    · subst hax
      rw [if_neg hnd'.1]
      simp
    · have hbx : ((a == x) : Bool) = false := by
        simpa using hax
      have hxa : ¬ x = a := fun h => hax h.symm
      simp [hbx, List.mem_cons, hxa]

lemma foldlM_sigStep_ok :
    ∀ (ls : List Str) (m0 : Str → Option SignalPSummary),
      ls.foldlM sigStep m0 = .ok (ls.foldl sigFoldPure m0) := by
  intro ls
  induction ls with
  | nil => intro m0; rfl
  | cons line ls ih =>
    intro m0
    rw [List.foldlM_cons, List.foldl_cons]
    cases hsp : sigProcessLine line with
    | error e =>
      cases e
      exact absurd hsp (sigProcessLine_no_error line)
    | ok o =>
      have hstep : sigStep m0 line = .ok (sigFoldPure m0 line) := by
        rw [sigStep, hsp, sigFoldPure, sigRetained, hsp]
        cases o <;> rfl
      rw [hstep, exceptBind_ok]
      exact ih (sigFoldPure m0 line)

lemma sigFold_last :
    ∀ (ls : List Str) (m0 : Str → Option SignalPSummary) (k : Str),
      (ls.foldl sigFoldPure m0) k =
        match ((ls.filterMap sigRetained).filter (fun p => p.1 == k)).getLast? with
        | some p => some p.2
        | none => m0 k := by
  intro ls
  induction ls with
  | nil => intro m0 k; rfl
  | cons line ls ih =>
    intro m0 k
    rw [List.foldl_cons, List.filterMap_cons]
    cases hr : sigRetained line with
    | none =>
      have hid : sigFoldPure m0 line = m0 := by rw [sigFoldPure, hr]
      rw [hid, ih]
    | some p =>
      have hup : sigFoldPure m0 line = sigUpdate m0 p := by rw [sigFoldPure, hr]
      rw [hup, ih]
      by_cases hpk : (p.1 == k) = true
      · have hfil : List.filter (fun q => q.1 == k)
            (p :: ls.filterMap sigRetained) =
            p :: List.filter (fun q => q.1 == k) (ls.filterMap sigRetained) := by
          rw [List.filter_cons, if_pos hpk]
        rw [hfil]
        have hkp : k = p.1 := by
          have := hpk
          simp at this
          exact this.symm
        cases hF : List.filter (fun q => q.1 == k) (ls.filterMap sigRetained) with
        | nil =>
          rw [List.getLast?_singleton, sigUpdate, if_pos hkp]
          rfl
        | cons f fs =>
          rw [List.getLast?_cons_cons]
          cases hL : (f :: fs).getLast? with
          | none => simp at hL
          | some q => rfl
      · have hfil : List.filter (fun q => q.1 == k)
            (p :: ls.filterMap sigRetained) =
            List.filter (fun q => q.1 == k) (ls.filterMap sigRetained) := by
          rw [List.filter_cons, if_neg (by simpa using hpk)]
        rw [hfil]
        have hkp : ¬ k = p.1 := by
          intro hk
          exact hpk (by simp [hk])
        cases hF : List.filter (fun q => q.1 == k) (ls.filterMap sigRetained) with
        | nil => rw [sigUpdate, if_neg hkp]
        | cons f fs => rfl

lemma sigRetained_iff (line : Str) (k : Str) (r : SignalPSummary) :
    sigRetained line = some (k, r) ↔
      (6 ≤ (splitOnChar '\t' (pyStrip line)).length ∧
       (splitWs ((splitOnChar '\t' (pyStrip line)).getD 0 [])).head? = some k ∧
       pyInt ((splitOnChar '\t' (pyStrip line)).getD 1 []) = some r.sp_start ∧
       pyInt ((splitOnChar '\t' (pyStrip line)).getD 2 []) = some r.sp_end ∧
       pyInt ((splitOnChar '\t' (pyStrip line)).getD 3 []) = some r.cleavage_after_aa ∧
       pyInt ((splitOnChar '\t' (pyStrip line)).getD 4 []) = some r.original_len ∧
       pyInt ((splitOnChar '\t' (pyStrip line)).getD 5 []) = some r.new_len) := by
  constructor
  · intro h
    rw [sigRetained] at h
    cases hsp : sigProcessLine line with
    | error e => rw [hsp] at h; exact Option.noConfusion h
    | ok o =>
      rw [hsp] at h
      cases o with
      | none => exact Option.noConfusion h
      | some p =>
        have hp : p = (k, r) := by
          have := h
          simpa using this
        subst hp
        rw [sigProcessLine] at hsp
        split at hsp
        · exact Option.noConfusion (Except.ok.inj hsp)
        · rw [sigParts] at hsp
          split at hsp
          · exact Option.noConfusion (Except.ok.inj hsp)
          · rename_i hlen
            split at hsp
            · exact Except.noConfusion hsp
            · rename_i sid rest hws
              split at hsp
              · rename_i v1 v2 v3 v4 v5 h1 h2 h3 h4 h5
                have hpair := Option.some.inj (Except.ok.inj hsp)
                have hsid : sid = k := (Prod.mk.injEq _ _ _ _ ▸ hpair).1
                have hrec : (⟨v1, v2, v3, v4, v5⟩ : SignalPSummary) = r :=
                  (Prod.mk.injEq _ _ _ _ ▸ hpair).2
                refine ⟨by omega, ?_, ?_, ?_, ?_, ?_, ?_⟩
                · rw [hws, ← hsid]; rfl
                · rw [h1, ← hrec]
                · rw [h2, ← hrec]
                · rw [h3, ← hrec]
                · rw [h4, ← hrec]
                · rw [h5, ← hrec]
              · exact Option.noConfusion (Except.ok.inj hsp)
  · rintro ⟨hlen, hhead, h1, h2, h3, h4, h5⟩
    have hne : ¬ (pyStrip line).isEmpty = true := by
      intro hh
      have : pyStrip line = [] := by simpa using hh
      rw [this] at hlen
      simp [splitOnChar] at hlen
    obtain ⟨rest, hws⟩ : ∃ rest,
        splitWs ((splitOnChar '\t' (pyStrip line)).getD 0 []) = k :: rest := by
      cases hw : splitWs ((splitOnChar '\t' (pyStrip line)).getD 0 []) with
      | nil => rw [hw] at hhead; exact Option.noConfusion hhead
      | cons a l =>
        rw [hw] at hhead
        have : a = k := by simpa using hhead
        exact ⟨l, by rw [this]⟩
    rw [sigRetained, sigProcessLine, if_neg hne, sigParts,
      if_neg (by omega), hws, h1, h2, h3, h4, h5]

/-- C7: the SignalP summary parser never raises (every line is retained or
silently dropped); a non-header line is retained exactly when it has at least
6 tab-separated fields whose fields 2 through 6 all parse as integers, keyed
by the first whitespace-delimited token of field 1; and the resulting map
holds, for each key, the record of the last retained line with that key
(last-wins). -/
theorem parse_signalp_summary_last_wins (lines : List Str) :
    (∃ m, parse_signalp_summary lines = .ok m ∧
      ∀ k, m k =
        match (((lines.drop 1).filterMap sigRetained).filter
            (fun p => p.1 == k)).getLast? with
        | some p => some p.2
        | none => none) ∧
    (∀ line k r, sigRetained line = some (k, r) ↔
      (6 ≤ (splitOnChar '\t' (pyStrip line)).length ∧
       (splitWs ((splitOnChar '\t' (pyStrip line)).getD 0 [])).head? = some k ∧
       pyInt ((splitOnChar '\t' (pyStrip line)).getD 1 []) = some r.sp_start ∧
       pyInt ((splitOnChar '\t' (pyStrip line)).getD 2 []) = some r.sp_end ∧
       pyInt ((splitOnChar '\t' (pyStrip line)).getD 3 []) = some r.cleavage_after_aa ∧
       pyInt ((splitOnChar '\t' (pyStrip line)).getD 4 []) = some r.original_len ∧
       pyInt ((splitOnChar '\t' (pyStrip line)).getD 5 []) = some r.new_len)) := by
  constructor
  · refine ⟨(lines.drop 1).foldl sigFoldPure (fun _ => none), ?_, ?_⟩
    · rw [parse_signalp_summary, foldlM_sigStep_ok]
    · intro k
      rw [sigFold_last]
  · exact fun line k r => sigRetained_iff line k r

/-- Witness for C7 at a concrete input: a retained line, a short dropped
line, and a duplicate key resolved last-wins. -/
theorem parse_signalp_summary_last_wins_witness :
    (∃ m, parse_signalp_summary
        ["header".toList, "idA extra\t1\t2\t3\t100\t80".toList,
          "short\t1".toList, "idA\t9\t8\t7\t60\t50".toList] = .ok m ∧
      m "idA".toList = some ⟨9, 8, 7, 60, 50⟩ ∧ m "zz".toList = none) ∧
    sigRetained "short\t1".toList = none ∧
    sigRetained "idA extra\t1\t2\t3\t100\t80".toList =
      some ("idA".toList, ⟨1, 2, 3, 100, 80⟩) := by
  obtain ⟨⟨m, hm, hchar⟩, hiff⟩ := parse_signalp_summary_last_wins
    ["header".toList, "idA extra\t1\t2\t3\t100\t80".toList,
      "short\t1".toList, "idA\t9\t8\t7\t60\t50".toList]
  refine ⟨⟨m, hm, ?_, ?_⟩, by decide, ?_⟩
  · rw [hchar]; decide
  · rw [hchar]; decide
  · exact (hiff "idA extra\t1\t2\t3\t100\t80".toList "idA".toList
      ⟨1, 2, 3, 100, 80⟩).mpr (by decide)

/-- C2: the join engine emits exactly one row per identifier of the
selected-FASTA length map (in that map's order) and none for any other
identifier; every field whose source map lacks the identifier is the
explicit empty value; and the original-length field is the original-proteome
length when available, else the SignalP record's recorded original length
when such a record exists, else empty. -/
theorem join_engine_rows (sample pfam : Str) (selected : List (Str × Nat))
    (trimmed orig : Str → Option Nat) (sig : Str → Option SignalPSummary)
    (hmmF pfF : Str → Option DomHit) :
    (buildRows sample pfam selected trimmed orig sig hmmF pfF).map
        (fun row => row.sequence_id) = selected.map Prod.fst ∧
    ((selected.map Prod.fst).Nodup →
      ∀ sid, ((buildRows sample pfam selected trimmed orig sig hmmF pfF).filter
          (fun row => row.sequence_id == sid)).length =
        if sid ∈ selected.map Prod.fst then 1 else 0) ∧
    ∀ row ∈ buildRows sample pfam selected trimmed orig sig hmmF pfF,
      (hmmF row.sequence_id = none →
        row.hmm_query = none ∧ row.hmm_full_evalue = none ∧
        row.hmm_full_bitscore = none ∧ row.hmm_domain_ievalue = none ∧
        row.hmm_domain_bitscore = none ∧ row.hmm_ali_from = none ∧
        row.hmm_ali_to = none ∧ row.hmm_hmm_from = none ∧
        row.hmm_hmm_to = none ∧ row.hmm_acc = none) ∧
      (pfF row.sequence_id = none →
        row.pfam_hit = none ∧ row.pfam_evalue_full = none ∧
        row.pfam_bitscore_full = none ∧ row.pfam_domain_ievalue = none ∧
        row.pfam_domain_bitscore = none ∧ row.pfam_ali_from = none ∧
        row.pfam_ali_to = none ∧ row.pfam_desc = none) ∧
      (sig row.sequence_id = none →
        row.has_signal_peptide = "no".toList ∧ row.signalp_start = none ∧
        row.signalp_end = none ∧ row.signalp_cleavage_after_aa = none ∧
        row.signalp_mature_length_aa = none) ∧
      (trimmed row.sequence_id = none → row.length_secreted_trimmed_aa = none) ∧
      row.length_original_aa =
        (match orig row.sequence_id with
         | some v => some (v : Int)
         | none => (sig row.sequence_id).map (fun r => r.original_len)) := by
  refine ⟨?_, ?_, ?_⟩
  · rw [buildRows, List.map_map]
    have hcomp : ((fun row => row.sequence_id) ∘
        mkSummaryRow sample pfam selected trimmed orig sig hmmF pfF) = id := by
      funext sid; rfl
    rw [hcomp, List.map_id]
  · intro hnodup sid
    rw [buildRows, ← List.countP_eq_length_filter, List.countP_map]
    have hcomp : ((fun row => row.sequence_id == sid) ∘
        mkSummaryRow sample pfam selected trimmed orig sig hmmF pfF) =
        (fun q => q == sid) := by
      funext q; rfl
    rw [hcomp]
    exact countP_beq_nodup (selected.map Prod.fst) sid hnodup
  · intro row hrow
    rw [buildRows] at hrow
    obtain ⟨sid, hmemk, hrow⟩ := List.mem_map.mp hrow
    subst hrow
    have hsid : (mkSummaryRow sample pfam selected trimmed orig sig hmmF pfF
      sid).sequence_id = sid := rfl
    refine ⟨?_, ?_, ?_, ?_, ?_⟩
    · intro h; rw [hsid] at h; simp [mkSummaryRow, h]
    · intro h; rw [hsid] at h; simp [mkSummaryRow, h]
    · intro h; rw [hsid] at h; simp [mkSummaryRow, h]
    · intro h; rw [hsid] at h; simp [mkSummaryRow, h]
    · rw [hsid]
      cases horig : orig sid <;> simp [mkSummaryRow, horig]

/-- Witness for C2 at a concrete sample: two retained identifiers, one with a
SignalP record and no original-proteome length (fallback to the recorded
original length), one with every optional source absent (all empty values). -/
theorem join_engine_rows_witness :
    (buildRows "s1".toList "PF01083".toList [("a".toList, 10), ("b".toList, 20)]
        (fun k => if k = "a".toList then some 8 else none) (fun _ => none)
        (fun k => if k = "a".toList then some ⟨1, 2, 3, 30, 28⟩ else none)
        (fun _ => none) (fun _ => none)).map (fun row => row.sequence_id) =
      ["a".toList, "b".toList] ∧
    ((buildRows "s1".toList "PF01083".toList [("a".toList, 10), ("b".toList, 20)]
        (fun k => if k = "a".toList then some 8 else none) (fun _ => none)
        (fun k => if k = "a".toList then some ⟨1, 2, 3, 30, 28⟩ else none)
        (fun _ => none) (fun _ => none)).filter
        (fun row => row.sequence_id == "a".toList)).length = 1 ∧
    ((buildRows "s1".toList "PF01083".toList [("a".toList, 10), ("b".toList, 20)]
        (fun k => if k = "a".toList then some 8 else none) (fun _ => none)
        (fun k => if k = "a".toList then some ⟨1, 2, 3, 30, 28⟩ else none)
        (fun _ => none) (fun _ => none)).filter
        (fun row => row.sequence_id == "zz".toList)).length = 0 ∧
    (mkSummaryRow "s1".toList "PF01083".toList [("a".toList, 10), ("b".toList, 20)]
        (fun k => if k = "a".toList then some 8 else none) (fun _ => none)
        (fun k => if k = "a".toList then some ⟨1, 2, 3, 30, 28⟩ else none)
        (fun _ => none) (fun _ => none) "b".toList).hmm_query = none ∧
    (mkSummaryRow "s1".toList "PF01083".toList [("a".toList, 10), ("b".toList, 20)]
        (fun k => if k = "a".toList then some 8 else none) (fun _ => none)
        (fun k => if k = "a".toList then some ⟨1, 2, 3, 30, 28⟩ else none)
        (fun _ => none) (fun _ => none) "b".toList).has_signal_peptide =
      "no".toList ∧
    (mkSummaryRow "s1".toList "PF01083".toList [("a".toList, 10), ("b".toList, 20)]
        (fun k => if k = "a".toList then some 8 else none) (fun _ => none)
        (fun k => if k = "a".toList then some ⟨1, 2, 3, 30, 28⟩ else none)
        (fun _ => none) (fun _ => none) "b".toList).length_original_aa = none ∧
    (mkSummaryRow "s1".toList "PF01083".toList [("a".toList, 10), ("b".toList, 20)]
        (fun k => if k = "a".toList then some 8 else none) (fun _ => none)
        (fun k => if k = "a".toList then some ⟨1, 2, 3, 30, 28⟩ else none)
        (fun _ => none) (fun _ => none) "a".toList).length_original_aa =
      some 30 := by
  have t := join_engine_rows "s1".toList "PF01083".toList
    [("a".toList, 10), ("b".toList, 20)]
    (fun k => if k = "a".toList then some 8 else none) (fun _ => none)
    (fun k => if k = "a".toList then some ⟨1, 2, 3, 30, 28⟩ else none)
    (fun _ => none) (fun _ => none)
  have hmemb : (mkSummaryRow "s1".toList "PF01083".toList
      [("a".toList, 10), ("b".toList, 20)]
      (fun k => if k = "a".toList then some 8 else none) (fun _ => none)
      (fun k => if k = "a".toList then some ⟨1, 2, 3, 30, 28⟩ else none)
      (fun _ => none) (fun _ => none) "b".toList) ∈
      buildRows "s1".toList "PF01083".toList [("a".toList, 10), ("b".toList, 20)]
        (fun k => if k = "a".toList then some 8 else none) (fun _ => none)
        (fun k => if k = "a".toList then some ⟨1, 2, 3, 30, 28⟩ else none)
        (fun _ => none) (fun _ => none) :=
    List.mem_map.mpr ⟨"b".toList, by decide, rfl⟩
  have hmema : (mkSummaryRow "s1".toList "PF01083".toList
      [("a".toList, 10), ("b".toList, 20)]
      (fun k => if k = "a".toList then some 8 else none) (fun _ => none)
      (fun k => if k = "a".toList then some ⟨1, 2, 3, 30, 28⟩ else none)
      (fun _ => none) (fun _ => none) "a".toList) ∈
      buildRows "s1".toList "PF01083".toList [("a".toList, 10), ("b".toList, 20)]
        (fun k => if k = "a".toList then some 8 else none) (fun _ => none)
        (fun k => if k = "a".toList then some ⟨1, 2, 3, 30, 28⟩ else none)
        (fun _ => none) (fun _ => none) :=
    List.mem_map.mpr ⟨"a".toList, by decide, rfl⟩
  refine ⟨t.1.trans (by decide), (t.2.1 (by decide) "a".toList).trans (by decide),
    (t.2.1 (by decide) "zz".toList).trans (by decide), ?_, ?_, ?_, ?_⟩
  · exact ((t.2.2 _ hmemb).1 rfl).1
  · exact ((t.2.2 _ hmemb).2.2.1 (by decide)).1
  · exact ((t.2.2 _ hmemb).2.2.2.2).trans (by decide)
  · exact ((t.2.2 _ hmema).2.2.2.2).trans (by decide)
